import Mathlib

/-!
Verification of the `react-mse-player` connection/session core
(`src/MSEVideoStream.js`, with the second `src/MSEVideoStream.tsx` variant
where noted).  The JavaScript component is embedded shallowly: the mutable
`stateRef.current` record becomes explicit state passing, timers and
DOM/WebSocket events become an explicit event alphabet, and byte arrays
become `List Nat`.
-/

namespace MSE

/-! ## Segment buffer

`stateRef.current.buffer = { data: new Uint8Array(2 * 1024 * 1024), length: 0 }`
(MSEVideoStream.js line 21).  The arena `data` is a fixed byte array; `length`
is the logical fill.  `data.set(view, offset)` overwrites bytes starting at
`offset`, which on lists is take/`++`/drop splicing. -/

def bufferCapacity : Nat := 2 * 1024 * 1024

structure MSEBuffer where
  data : List Nat
  length : Nat
deriving DecidableEq

/-- `arena.set(seg, off)`: overwrite the bytes at positions `off, …,
off + seg.length - 1` with `seg`, keeping the rest of the arena. -/
def bufSet (arena seg : List Nat) (off : Nat) : List Nat :=
  arena.take off ++ seg ++ arena.drop (off + seg.length)

/-- The queuing branch of `appendData` (MSEVideoStream.js lines 189-199):
if `buffer.length + dataView.byteLength <= buffer.data.length` the bytes are
copied in at offset `buffer.length` and the logical length grows; otherwise
nothing at all happens (the incoming segment is dropped whole). -/
def enqueue (b : MSEBuffer) (seg : List Nat) : MSEBuffer :=
  if b.length + seg.length ≤ b.data.length then
    { data := bufSet b.data seg b.length, length := b.length + seg.length }
  else b

/-- The successful flush in `sbUpdateHandler` (MSEVideoStream.js line 224):
`state.buffer.length = 0` — the arena is reused, only the logical length
resets. -/
def flushReset (b : MSEBuffer) : MSEBuffer :=
  { b with length := 0 }

/-- The fresh buffer of the component state (line 21). -/
def initBuffer : MSEBuffer :=
  { data := List.replicate bufferCapacity 0, length := 0 }

/-- One buffer operation: an enqueue of a segment's bytes, or a flush. -/
inductive BufOp
  | enq (seg : List Nat)
  | flush

def applyOp (b : MSEBuffer) : BufOp → MSEBuffer
  | .enq seg => enqueue b seg
  | .flush => flushReset b

def applyOps (b : MSEBuffer) (ops : List BufOp) : MSEBuffer :=
  ops.foldl applyOp b

/-- Well-formedness carried through every operation: the logical length never
exceeds the arena, and the arena stays at its allocated size. -/
def bufWF (b : MSEBuffer) : Prop :=
  b.length ≤ b.data.length ∧ b.data.length = bufferCapacity

/-! ## Sink append and the `updateend` flush handler

`sbUpdateHandler` (MSEVideoStream.js lines 219-233) runs on the SourceBuffer's
`updateend` event.  `sb.appendBuffer` either returns (starting an update, so
`sb.updating` becomes true) or throws; the handler catches the throw and, for
`QuotaExceededError`, calls `trimBuffer`; it also calls `trimBuffer`
unconditionally at the end.  `trimBuffer` (lines 167-181) asks the sink to
`remove` old data when the playhead has run more than 10 s past the buffered
start; `sb.remove` itself starts an update, so a second `trimBuffer` right
after an issued remove is a no-op. -/

/-- Outcome of a `sb.appendBuffer` call, chosen by the environment. -/
inductive AppendResult
  | ok
  | quotaExceeded
  | otherError
deriving DecidableEq

/-- A call the handler makes on the sink. -/
inductive SinkOp
  | append (bytes : List Nat)
  | remove (first last : Int)
deriving DecidableEq

/-- `trimBuffer` (lines 167-181): given `sb.updating`, the buffered start
`sb.buffered.start(0)` (none when `sb.buffered.length == 0`) and
`videoRef.current?.currentTime || 0`, possibly issue one
`sb.remove(bufferedStart, currentTime - 5)`; an issued remove starts an
update, so the returned flag is the new `sb.updating`. -/
def trimStep (updating : Bool) (bufferedStart : Option Int) (currentTime : Int) :
    Bool × List SinkOp :=
  if updating then (updating, [])
  else
    match bufferedStart with
    | none => (updating, [])
    | some bs =>
      if 10 < currentTime - bs then (true, [.remove bs (currentTime - 5)])
      else (updating, [])

/-- `sbUpdateHandler` (lines 219-233).  Input: `sb.updating` at entry, the
queued buffer, the environment's outcome for an attempted `appendBuffer`, and
`trimBuffer`'s inputs.  Output: the buffer afterwards, `sb.updating`
afterwards, and the sink calls made, in order.  On `ok` the append starts an
update (`updating` true) and only then is `buffer.length = 0` executed; on a
throw the `length = 0` line is never reached. -/
def sbUpdateHandler (updating : Bool) (b : MSEBuffer) (res : AppendResult)
    (bufferedStart : Option Int) (currentTime : Int) :
    MSEBuffer × Bool × List SinkOp :=
  if updating = false ∧ 0 < b.length then
    let attempt : SinkOp := .append (b.data.take b.length)
    match res with
    | .ok =>
      -- append succeeded, length reset, tail trimBuffer sees updating = true
      let t := trimStep true bufferedStart currentTime
      (flushReset b, t.1, attempt :: t.2)
    | .quotaExceeded =>
      -- catch branch runs trimBuffer, then the tail trimBuffer runs again
      let t1 := trimStep false bufferedStart currentTime
      let t2 := trimStep t1.1 bufferedStart currentTime
      (b, t2.1, attempt :: (t1.2 ++ t2.2))
    | .otherError =>
      -- throw caught, nothing done in the catch, tail trimBuffer runs
      let t := trimStep false bufferedStart currentTime
      (b, t.1, attempt :: t.2)
  else
    let t := trimStep updating bufferedStart currentTime
    (b, t.1, t.2)

/-- Number of `append` calls in a list of sink operations. -/
def countAppend (ops : List SinkOp) : Nat :=
  ops.countP fun op => match op with | .append _ => true | .remove _ _ => false

/-- A small concrete buffer for counterexample evaluation. -/
def cexBuffer : MSEBuffer := { data := [1, 2, 3], length := 3 }

/-! ## URL normalization

`connect` (MSEVideoStream.js lines 276-281):

    let wsURL = src;
    if (wsURL.startsWith("http")) wsURL = "ws" + wsURL.substring(4);
    else if (wsURL.startsWith("/")) wsURL = "ws" + window.location.origin.substring(4) + wsURL;

JavaScript strings are sequences of code units, embedded as `List Char`;
`startsWith p` is `take p.length = p` and `substring(4)` is `drop 4`. -/

def normalizeWsURL (src origin : List Char) : List Char :=
  if src.take 4 = "http".data then "ws".data ++ src.drop 4
  else if src.take 1 = "/".data then "ws".data ++ origin.drop 4 ++ src
  else src

/-- The normalization exactly as the claim words it: only an address that
begins with an actual HTTP(S) scheme (`http:`/`https:`) has its scheme prefix
substituted (http→ws, https→wss); an address beginning with `/` is resolved
against the origin with its scheme substituted; every other address is used
verbatim. -/
def claimedNormalizeWsURL (src origin : List Char) : List Char :=
  if src.take 6 = "https:".data then "wss:".data ++ src.drop 6
  else if src.take 5 = "http:".data then "ws:".data ++ src.drop 5
  else if src.take 1 = "/".data then
    (if origin.take 6 = "https:".data then "wss:".data ++ origin.drop 6
     else if origin.take 5 = "http:".data then "ws:".data ++ origin.drop 5
     else origin) ++ src
  else src

/-! ## Capability negotiation

`getSupportedCodecs` (MSEVideoStream.js lines 62-69) filters the fixed codec
candidate list by requested media kind — a candidate whose identifier contains
`vc1` is a video codec, anything else audio — and by the Capability Oracle's
probe `isSupported`, then joins with `,` (the default separator of JS
`Array.join()`).  The `sourceopen` handler (lines 251-258) sends
`JSON.stringify({ type: "mse", value: codecs })`, attached with
`{ once: true }`. -/

/-- `pat` is a prefix of `s` (JS code-unit comparison). -/
def isPrefixCh : List Char → List Char → Bool
  | [], _ => true
  | _ :: _, [] => false
  | a :: as, b :: bs => a = b && isPrefixCh as bs

/-- `s.includes(pat)` of JavaScript on code-unit lists. -/
def containsSub (pat : List Char) : List Char → Bool
  | [] => pat.isEmpty
  | c :: rest => isPrefixCh pat (c :: rest) || containsSub pat rest

/-- JS `a.includes(b)` on the embedded strings. -/
def strIncludes (s pat : String) : Bool := containsSub pat.data s.data

/-- `codecsRef.current` (lines 51-60), in order. -/
def codecsList : List String :=
  ["avc1.640029", "avc1.64002A", "avc1.640033", "hvc1.1.6.L153.B0",
   "mp4a.40.2", "mp4a.40.5", "flac", "opus"]

/-- The media-kind filter of line 64-66:
`media.includes(codec.includes("vc1") ? "video" : "audio")`. -/
def kindOk (media codec : String) : Bool :=
  strIncludes media (if strIncludes codec "vc1" then "video" else "audio")

/-- The MIME string handed to the Capability Oracle (line 67). -/
def mimeOf (codec : String) : String :=
  "video/mp4; codecs=\"" ++ codec ++ "\""

/-- The accepted codec list before joining (the two `.filter` calls). -/
def acceptedCodecs (media : String) (isSupported : String → Bool) : List String :=
  (codecsList.filter fun codec => kindOk media codec).filter
    fun codec => isSupported (mimeOf codec)

/-- `getSupportedCodecs` (lines 62-69): the comma-join of the accepted list. -/
def getSupportedCodecs (media : String) (isSupported : String → Bool) : String :=
  String.intercalate "," (acceptedCodecs media isSupported)

/-- The control message the `sourceopen` handler sends (line 255), as the
ordered key/value pairs of `JSON.stringify({ type: "mse", value: codecs })`. -/
def mseMessage (media : String) (isSupported : String → Bool) : List (String × String) :=
  [("type", "mse"), ("value", getSupportedCodecs media isSupported)]

/-- The message exactly as the claim words it:
`{type: "negotiate", codecs: <comma-joined accepted list>}`. -/
def claimedNegotiateMessage (media : String) (isSupported : String → Bool) :
    List (String × String) :=
  [("type", "negotiate"), ("codecs", getSupportedCodecs media isSupported)]

/-! ## Reconnect delay

Two variants exist in the repository.  The second `MSEVideoStream.tsx`
variant (lines 605-626) computes
`Math.max(RECONNECT_TIMEOUT - (Date.now() - connectTSRef.current), 0)` with
`RECONNECT_TIMEOUT = 15000`; the `MSEVideoStream.js` variant (lines 142-147)
always schedules `setTimeout(…, 2000)`. -/

def RECONNECT_TIMEOUT : Int := 15000

/-- The tsx second variant's delay: `max(15000 − (now − connectTS), 0)`. -/
def reconnectDelayTsx (connectTS now : Int) : Int :=
  max (RECONNECT_TIMEOUT - (now - connectTS)) 0

/-- The js variant's delay: the literal `2000` of `setTimeout(…, 2000)`. -/
def jsReconnectDelayMs : Int := 2000

/-! ## The session event machine

The mutable `stateRef.current` record and the closures of the effect body
(MSEVideoStream.js lines 71-329), as an explicit state record plus one step
function over the event alphabet delivered by the host event loop (WebSocket
callbacks, the MediaSource `sourceopen` listener, the SourceBuffer
`updateend` listener, the reconnect timeout, the stalled-check interval).
A Boolean flag stands for "this callback/timer is attached and live": an event
whose flag is down cannot fire and leaves the state untouched.  Observable
outputs are the `onStatus`/`onError` notifications, the `connect()` entry
(counted for single-flight) and the negotiate send. -/

structure Machine where
  wsAttached : Bool
  msAvailable : Bool
  msPresent : Bool
  msListener : Bool
  sbAttached : Bool
  sbUpdating : Bool
  bufLength : Nat
  lastDataTime : Nat
  reconnectTimer : Bool
  stalledTimer : Bool
  isMounted : Bool
  isReconnecting : Bool
  status : String
deriving DecidableEq

inductive Out
  | statusCb (s : String)
  | errorCb (e : Option String)
  | connectCall
  | sendNegotiate
deriving DecidableEq

/-- `cleanup` (lines 78-132): clear both timers, detach the `updateend`
listener, null the WebSocket handlers and close it, drop the MediaSource,
reset the buffer's logical length and the last-data timestamp.  The
`sourceopen` once-listener sits on the MediaSource object itself and is not
removed (its handler reads `state.ws`, which is now null).  Emits nothing. -/
def cleanupM (m : Machine) : Machine :=
  { m with reconnectTimer := false, stalledTimer := false, sbAttached := false,
           wsAttached := false, msPresent := false, bufLength := 0,
           lastDataTime := 0 }

/-- The effect cleanup (lines 325-328): `state.isMounted = false; cleanup()`. -/
def stopEffect (m : Machine) : Machine :=
  cleanupM { m with isMounted := false }

/-- `connect` (lines 271-321): status `connecting`, open a WebSocket and
attach its four handlers.  `Out.connectCall` marks the entry. -/
def connectM (m : Machine) : Machine × List Out :=
  ({ m with status := "connecting", wsAttached := true },
   [.statusCb "connecting", .connectCall])

/-- `reconnect` (lines 134-148): re-entrant calls while unmounted or while a
reconnection is pending are no-ops; otherwise set the guard, run `cleanup`,
report `reconnecting` and schedule the timeout. -/
def reconnectM (m : Machine) : Machine × List Out :=
  if m.isMounted = true ∧ m.isReconnecting = false then
    let m1 := cleanupM { m with isReconnecting := true }
    ({ m1 with status := "reconnecting", reconnectTimer := true },
     [.statusCb "reconnecting"])
  else (m, [])

/-- `startStalledCheck` (lines 150-164): replace any previous interval with a
fresh one. -/
def startStalledCheckM (m : Machine) : Machine :=
  { m with stalledTimer := true }

/-- `setupMSE` (lines 241-269): with no MediaSource class, error out; else
create the MediaSource and attach the `sourceopen` once-listener. -/
def setupMSEM (m : Machine) : Machine × List Out :=
  if m.msAvailable then ({ m with msPresent := true, msListener := true }, [])
  else ({ m with status := "error" },
        [.errorCb (some "MediaSource not supported"), .statusCb "error"])

/-- `setupSourceBuffer` (lines 212-239): bail out if the MediaSource is gone;
else add the SourceBuffer, attach `updateend`, report `streaming` and arm the
watchdog. -/
def setupSourceBufferM (m : Machine) : Machine × List Out :=
  if m.msPresent then
    (startStalledCheckM
       { m with sbAttached := true, sbUpdating := false, status := "streaming" },
     [.statusCb "streaming"])
  else (m, [])

/-- `appendData` (lines 183-210) at the machine level: stamp `lastDataTime`,
then queue (bounded, drop-on-overflow) while the sink is busy or bytes are
already queued, else attempt the direct `appendBuffer` whose success starts an
update. -/
def appendDataM (m : Machine) (now k : Nat) (directOk : Bool) : Machine :=
  let m1 := { m with lastDataTime := now }
  if m1.sbAttached then
    if m1.sbUpdating = true ∨ 0 < m1.bufLength then
      if m1.bufLength + k ≤ bufferCapacity then
        { m1 with bufLength := m1.bufLength + k }
      else m1
    else if directOk then { m1 with sbUpdating := true } else m1
  else m1

/-- The event alphabet the host loop can deliver. -/
inductive Ev
  | wsOpen
  | wsMsgCodec
  | wsMsgError (e : String)
  | wsBinary (now k : Nat) (directOk : Bool)
  | wsClose
  | wsError
  | sourceopen
  | updateend (res : AppendResult)
  | reconnectFire
  | stallTick (now : Nat)

/-- One delivered event.  A WebSocket event fires only while the handlers are
attached, `sourceopen` only while its once-listener is pending, `updateend`
only while the SourceBuffer listener is attached, and a timer event only
while its timer is live; otherwise the delivery is a no-op. -/
def stepE (m : Machine) : Ev → Machine × List Out
  | .wsOpen =>
    if m.wsAttached then
      let r := setupMSEM { m with status := "open" }
      (r.1, [.statusCb "open", .errorCb none] ++ r.2)
    else (m, [])
  | .wsMsgCodec =>
    if m.wsAttached then setupSourceBufferM m else (m, [])
  | .wsMsgError e =>
    if m.wsAttached then
      let r := reconnectM { m with status := "error" }
      (r.1, [.errorCb (some e), .statusCb "error"] ++ r.2)
    else (m, [])
  | .wsBinary now k directOk =>
    if m.wsAttached then (appendDataM m now k directOk, []) else (m, [])
  | .wsClose =>
    if m.wsAttached then
      let r := reconnectM { m with wsAttached := false, status := "closed" }
      (r.1, [.statusCb "closed"] ++ r.2)
    else (m, [])
  | .wsError =>
    if m.wsAttached then
      ({ m with status := "error" },
       [.errorCb (some "Connection failed"), .statusCb "error"])
    else (m, [])
  | .sourceopen =>
    if m.msListener then
      ({ m with msListener := false },
       if m.wsAttached then [.sendNegotiate] else [])
    else (m, [])
  | .updateend res =>
    if m.sbAttached then
      let m1 := { m with sbUpdating := false }
      if 0 < m1.bufLength then
        match res with
        | .ok => ({ m1 with bufLength := 0, sbUpdating := true }, [])
        | .quotaExceeded => (m1, [])
        | .otherError => (m1, [])
      else (m1, [])
    else (m, [])
  | .reconnectFire =>
    if m.reconnectTimer then
      let m1 := { m with reconnectTimer := false, isReconnecting := false }
      if m1.isMounted then connectM m1 else (m1, [])
    else (m, [])
  | .stallTick now =>
    if m.stalledTimer then
      if m.lastDataTime = 0 then (m, [])
      else if 2000 < now - m.lastDataTime then
        let r := reconnectM { m with status := "stalled" }
        (r.1, [.statusCb "stalled"] ++ r.2)
      else (m, [])
    else (m, [])

/-- Deliver a list of events, collecting every output in order. -/
def runTrace (m : Machine) : List Ev → Machine × List Out
  | [] => (m, [])
  | e :: es =>
    let r := stepE m e
    let rest := runTrace r.1 es
    (rest.1, r.2 ++ rest.2)

/-- Number of `connect()` entries among the outputs. -/
def countConnect (outs : List Out) : Nat :=
  outs.countP fun o => match o with | .connectCall => true | _ => false

/-- A machine in the `streaming` state used for concrete evaluation. -/
def streamingMachine : Machine :=
  { wsAttached := true, msAvailable := true, msPresent := true,
    msListener := false, sbAttached := true, sbUpdating := false,
    bufLength := 0, lastDataTime := 0, reconnectTimer := false,
    stalledTimer := true, isMounted := true, isReconnecting := false,
    status := "streaming" }

/-! ## Segment arrival/flush trace system

`appendData` and `sbUpdateHandler` against the sink, instrumented with ghost
bookkeeping: each arriving binary message gets the next arrival sequence
number; `queued` lists the segments whose bytes sit in the arena (in queuing
order), `sinkLog` the segments whose bytes the sink has received (in delivery
order), `sinkCalls` the literal byte payloads of the `appendBuffer` calls. -/

structure Segment where
  sid : Nat
  bytes : List Nat
deriving DecidableEq

structure StreamSys where
  buffer : MSEBuffer
  sbPresent : Bool
  sbUpdating : Bool
  queued : List Segment
  sinkLog : List Segment
  sinkCalls : List (List Nat)
  nextId : Nat

/-- A binary message arrives (`appendData`, lines 183-210).  `directOk` is the
environment's verdict on a direct `appendBuffer` (false = it threw and the
segment is lost).  The ghost `queued` records the segment exactly when its
bytes were written into the arena. -/
def arriveStep (s : StreamSys) (bytes : List Nat) (directOk : Bool) : StreamSys :=
  let seg : Segment := { sid := s.nextId, bytes := bytes }
  let s1 := { s with nextId := s.nextId + 1 }
  if s1.sbPresent then
    if s1.sbUpdating = true ∨ 0 < s1.buffer.length then
      { s1 with buffer := enqueue s1.buffer bytes,
                queued :=
                  if s1.buffer.length + bytes.length ≤ s1.buffer.data.length
                  then s1.queued ++ [seg] else s1.queued }
    else if directOk then
      { s1 with sinkLog := s1.sinkLog ++ [seg],
                sinkCalls := s1.sinkCalls ++ [bytes],
                sbUpdating := true }
    else s1
  else s1

/-- The sink signals ready (`updateend` → `sbUpdateHandler`, lines 219-233):
the update just finished, and if bytes are queued the whole prefix is handed
over in one call; `flushOk` false means `appendBuffer` threw and the queue is
retained. -/
def updateendStep (s : StreamSys) (flushOk : Bool) : StreamSys :=
  let s1 := { s with sbUpdating := false }
  if 0 < s1.buffer.length then
    if flushOk then
      { s1 with
          sinkCalls := s1.sinkCalls ++ [s1.buffer.data.take s1.buffer.length],
          sinkLog := s1.sinkLog ++ s1.queued,
          queued := [],
          buffer := flushReset s1.buffer,
          sbUpdating := true }
    else s1
  else s1

inductive SEv
  | arrive (bytes : List Nat) (directOk : Bool)
  | updateend (flushOk : Bool)

def sstep (s : StreamSys) : SEv → StreamSys
  | .arrive bytes directOk => arriveStep s bytes directOk
  | .updateend flushOk => updateendStep s flushOk

def runS (s : StreamSys) (evs : List SEv) : StreamSys :=
  evs.foldl sstep s

/-- The system at the moment the SourceBuffer is installed: fresh 2 MiB
buffer, nothing queued, nothing delivered. -/
def initS : StreamSys :=
  { buffer := initBuffer, sbPresent := true, sbUpdating := false,
    queued := [], sinkLog := [], sinkCalls := [], nextId := 0 }

/-- The state `stop()` leaves behind: every callback source that could reach
the component is detached — no WebSocket handlers, no `updateend` listener,
no pending reconnect timeout, no stalled-check interval. -/
def silentM (m : Machine) : Prop :=
  m.wsAttached = false ∧ m.sbAttached = false ∧
  m.reconnectTimer = false ∧ m.stalledTimer = false

/-- A segment that carries at least one byte. -/
def nonEmptySeg (seg : Segment) : Bool := !seg.bytes.isEmpty

/-- The invariant of the arrival/flush system: the arena's live prefix is the
concatenation of the queued segments' bytes; over delivered-then-queued
segments the ones that carry bytes have strictly increasing arrival numbers;
every tracked segment has arrived; the sink's received bytes are exactly the
delivered segments' bytes in order. -/
def SInv (s : StreamSys) : Prop :=
  bufWF s.buffer ∧
  s.buffer.data.take s.buffer.length = (s.queued.map Segment.bytes).flatten ∧
  ((s.sinkLog ++ s.queued).filter nonEmptySeg).Pairwise (fun a b => a.sid < b.sid) ∧
  (∀ seg ∈ s.sinkLog ++ s.queued, seg.sid < s.nextId) ∧
  s.sinkCalls.flatten = (s.sinkLog.map Segment.bytes).flatten

theorem bufSet_length (arena seg : List Nat) (off : Nat)
    (h : off + seg.length ≤ arena.length) :
    (bufSet arena seg off).length = arena.length := by
  unfold bufSet
  have hoff : off ≤ arena.length := le_trans (Nat.le_add_right off seg.length) h
  simp [List.length_take, List.length_drop, Nat.min_eq_left hoff]
  omega

theorem enqueue_wf (b : MSEBuffer) (seg : List Nat) (h : bufWF b) :
    bufWF (enqueue b seg) := by
  unfold enqueue
  by_cases hc : b.length + seg.length ≤ b.data.length
  · simp only [hc, if_pos]
    refine ⟨?_, ?_⟩
    · rw [bufSet_length b.data seg b.length hc]
      exact hc
    · rw [bufSet_length b.data seg b.length hc]
      exact h.2
  · simpa [hc] using h

theorem flushReset_wf (b : MSEBuffer) (h : bufWF b) : bufWF (flushReset b) := by
  exact ⟨Nat.zero_le _, h.2⟩

theorem applyOp_wf (b : MSEBuffer) (op : BufOp) (h : bufWF b) :
    bufWF (applyOp b op) := by
  cases op with
  | enq seg => exact enqueue_wf b seg h
  | flush => exact flushReset_wf b h

theorem applyOps_wf (b : MSEBuffer) (ops : List BufOp) (h : bufWF b) :
    bufWF (applyOps b ops) := by
  induction ops generalizing b with
  | nil => exact h
  | cons op rest ih => exact ih (applyOp b op) (applyOp_wf b op h)

theorem initBuffer_wf : bufWF initBuffer := by
  constructor
  · exact Nat.zero_le _
  · simp [initBuffer]

/-- C2. Segment buffer bound and atomic drop: after any sequence of
enqueue/flush operations starting from the component's fresh 2 MiB buffer,
`0 ≤ length ≤ bufferCapacity`; and an enqueue whose segment would push the
length past the capacity returns the buffer literally unchanged — contents
and length both — so a dropped segment is never part-written. -/
theorem buffer_bound_atomic_drop (ops : List BufOp) :
    (0 ≤ (applyOps initBuffer ops).length ∧
      (applyOps initBuffer ops).length ≤ bufferCapacity) ∧
    ∀ seg : List Nat,
      bufferCapacity < (applyOps initBuffer ops).length + seg.length →
      enqueue (applyOps initBuffer ops) seg = applyOps initBuffer ops := by
  have hwf := applyOps_wf initBuffer ops initBuffer_wf
  refine ⟨⟨Nat.zero_le _, hwf.2 ▸ hwf.1⟩, ?_⟩
  intro seg hover
  unfold enqueue
  have : ¬ (applyOps initBuffer ops).length + seg.length ≤
      (applyOps initBuffer ops).data.length := by
    rw [hwf.2]
    omega
  simp [this]

/-- C7 counterexample: the claim says that after a `QuotaExceededError` the
handler requests a trim "and then retries the append exactly once" — two
append attempts in the invocation.  At a concrete rejected flush (buffered
bytes `[1,2,3]`, trim conditions satisfied: buffered start 0, playhead 20)
the handler makes exactly one append attempt, not two, and does request the
retention-window trim. -/
theorem flush_no_retry_cex :
    countAppend (sbUpdateHandler false cexBuffer .quotaExceeded (some 0) 20).2.2 = 1 ∧
    countAppend (sbUpdateHandler false cexBuffer .quotaExceeded (some 0) 20).2.2 ≠ 2 ∧
    SinkOp.remove 0 15 ∈ (sbUpdateHandler false cexBuffer .quotaExceeded (some 0) 20).2.2 := by
  refine ⟨by decide, by decide, by decide⟩

/-- C7, amended.  When the sink signals ready (`updateend`) and the buffered
length is positive: the entire buffered range goes to the sink as a single
append call, and on success the logical length resets to 0; if the sink
rejects with `QuotaExceededError`, the handler does not re-attempt the append
in the same invocation (exactly one append attempt), requests a
retention-window trim when the trim conditions hold, and leaves the buffer
unchanged for the next sink-ready event. -/
theorem flush_contract (b : MSEBuffer) (bs : Option Int) (ct : Int) (hlen : 0 < b.length) :
    (sbUpdateHandler false b .ok bs ct =
      (flushReset b, true, [.append (b.data.take b.length)])) ∧
    ((sbUpdateHandler false b .quotaExceeded bs ct).1 = b ∧
      countAppend (sbUpdateHandler false b .quotaExceeded bs ct).2.2 = 1 ∧
      (sbUpdateHandler false b .quotaExceeded bs ct).2.2.head? =
        some (.append (b.data.take b.length)) ∧
      ∀ s : Int, bs = some s → 10 < ct - s →
        SinkOp.remove s (ct - 5) ∈ (sbUpdateHandler false b .quotaExceeded bs ct).2.2) := by
  have hg : (false = false ∧ 0 < b.length) := ⟨rfl, hlen⟩
  constructor
  · simp [sbUpdateHandler, hg, trimStep]
  · refine ⟨?_, ?_, ?_, ?_⟩
    · simp [sbUpdateHandler, hg]
    · simp only [sbUpdateHandler, if_pos hg]
      cases bs with
      | none => simp [trimStep, countAppend, hlen]
      | some s =>
        by_cases hts : (10 : Int) < ct - s
        · simp [trimStep, hts, countAppend, hlen]
        · simp [trimStep, hts, countAppend, hlen]
    · simp [sbUpdateHandler, hg]
    · intro s hbs hts
      subst hbs
      simp [sbUpdateHandler, hg, trimStep, hts]

/-- C7 witness: the amended flush contract evaluated at the concrete rejected
flush of `cexBuffer`-like data, with every hypothesis discharged. -/
theorem flush_contract_witness :
    (sbUpdateHandler false { data := [7, 8], length := 2 } .ok (some 0) 20 =
      (flushReset { data := [7, 8], length := 2 }, true, [.append [7, 8]])) ∧
    SinkOp.remove 0 15 ∈
      (sbUpdateHandler false { data := [7, 8], length := 2 } .quotaExceeded (some 0) 20).2.2 := by
  have h := flush_contract { data := [7, 8], length := 2 } (some 0) 20 (by decide)
  exact ⟨h.1, h.2.2.2.2 0 rfl (by decide)⟩

/-- C10. Flush failure atomicity: if the sink's append throws during a flush,
the buffer — logical length and contents — is returned unchanged, retained
for the next sink-ready event; the length is reset to 0 only when the append
returned without throwing (or it was 0 already). -/
theorem flush_failure_atomicity (u : Bool) (b : MSEBuffer) (res : AppendResult)
    (bs : Option Int) (ct : Int) :
    (res ≠ .ok → (sbUpdateHandler u b res bs ct).1 = b) ∧
    ((sbUpdateHandler u b res bs ct).1.length = 0 → b.length = 0 ∨ res = .ok) := by
  constructor
  · intro hres
    unfold sbUpdateHandler
    by_cases hg : (u = false ∧ 0 < b.length)
    · cases res with
      | ok => exact absurd rfl hres
      | quotaExceeded => simp [hg]
      | otherError => simp [hg]
    · simp [hg]
  · intro hzero
    by_cases hg : (u = false ∧ 0 < b.length)
    · cases res with
      | ok => exact Or.inr rfl
      | quotaExceeded =>
        left
        have : (sbUpdateHandler u b .quotaExceeded bs ct).1 = b := by
          simp [sbUpdateHandler, hg]
        rw [this] at hzero
        exact hzero
      | otherError =>
        left
        have : (sbUpdateHandler u b .otherError bs ct).1 = b := by
          simp [sbUpdateHandler, hg]
        rw [this] at hzero
        exact hzero
    · left
      have : (sbUpdateHandler u b res bs ct).1 = b := by
        simp [sbUpdateHandler, hg]
      rw [this] at hzero
      exact hzero

/-- C10 witness: atomicity evaluated at a concrete failing flush. -/
theorem flush_failure_atomicity_witness :
    (sbUpdateHandler false { data := [4, 5, 6], length := 2 } .quotaExceeded none 0).1 =
      { data := [4, 5, 6], length := 2 } := by
  exact (flush_failure_atomicity false { data := [4, 5, 6], length := 2 }
    .quotaExceeded none 0).1 (by decide)

/-- C9 counterexample: the address `"httpfoo"` does not begin with an HTTP(S)
scheme, so by the claim it must be used verbatim; the code's prefix test is
the bare four characters `http`, so it rewrites it to `"wsfoo"`. -/
theorem url_normalization_cex :
    normalizeWsURL "httpfoo".data "http://h".data = "wsfoo".data ∧
    claimedNormalizeWsURL "httpfoo".data "http://h".data = "httpfoo".data ∧
    "wsfoo".data ≠ "httpfoo".data := by
  refine ⟨by decide, by decide, by decide⟩

theorem take_len_append {α : Type} (l rest : List α) : (l ++ rest).take l.length = l := by
  simpa using List.take_append l rest 0

theorem drop_len_append {α : Type} (l rest : List α) : (l ++ rest).drop l.length = rest := by
  simp

/-- C9, amended.  The code's normalization: an address beginning with the four
characters `http` (which covers exactly the `http://` and `https://` scheme
spellings) has that prefix replaced by `ws`, so `http://…` becomes `ws://…`
and `https://…` becomes `wss://…`; an address beginning with `/` is resolved
against the current origin with the same four-character substitution applied
to the origin; every other address is used verbatim. -/
theorem url_normalization (rest ro other origin : List Char)
    (ho : ¬ other.take 4 = "http".data) (hs : ¬ other.take 1 = "/".data) :
    normalizeWsURL ("http://".data ++ rest) origin = "ws://".data ++ rest ∧
    normalizeWsURL ("https://".data ++ rest) origin = "wss://".data ++ rest ∧
    normalizeWsURL ("http".data ++ rest) origin = "ws".data ++ rest ∧
    normalizeWsURL ('/' :: rest) ("http://".data ++ ro) =
      "ws://".data ++ ro ++ ('/' :: rest) ∧
    normalizeWsURL ('/' :: rest) ("https://".data ++ ro) =
      "wss://".data ++ ro ++ ('/' :: rest) ∧
    normalizeWsURL other origin = other := by
  have hhttp : ∀ tail : List Char,
      normalizeWsURL ("http".data ++ tail) origin = "ws".data ++ tail := by
    intro tail
    have ht : (("http".data ++ tail).take 4) = "http".data := by
      simpa using take_len_append "http".data tail
    have hd : (("http".data ++ tail).drop 4) = tail := by
      simpa using drop_len_append "http".data tail
    simp [normalizeWsURL, ht, hd]
  refine ⟨?_, ?_, hhttp rest, ?_, ?_, ?_⟩
  · simpa using hhttp ("://".data ++ rest)
  · simpa using hhttp ("s://".data ++ rest)
  · have hd : (("http://".data ++ ro).drop 4) = "://".data ++ ro := by
      simpa using drop_len_append "http".data ("://".data ++ ro)
    simp [normalizeWsURL, hd]
  · have hd : (("https://".data ++ ro).drop 4) = "s://".data ++ ro := by
      simpa using drop_len_append "http".data ("s://".data ++ ro)
    simp [normalizeWsURL, hd]
  · simp [normalizeWsURL, ho, hs]

/-- C9 witness: the amended normalization evaluated at concrete addresses. -/
theorem url_normalization_witness :
    normalizeWsURL "http://h/x".data "http://o".data = "ws://h/x".data ∧
    normalizeWsURL "https://h/x".data "http://o".data = "wss://h/x".data ∧
    normalizeWsURL "/api/ws".data "http://o".data = "ws://o/api/ws".data ∧
    normalizeWsURL "wss://h/x".data "http://o".data = "wss://h/x".data := by
  have h := url_normalization "h/x".data "o".data "wss://h/x".data "http://o".data
    (by decide) (by decide)
  have h2 := url_normalization "api/ws".data "o".data "wss://h/x".data "http://o".data
    (by decide) (by decide)
  refine ⟨?_, ?_, ?_, ?_⟩
  · simpa using h.1
  · simpa using h.2.1
  · simpa using h2.2.2.2.1
  · exact h.2.2.2.2.2

/-- C8 counterexample: with the default `media = "video,audio"` and an oracle
accepting everything, the message the code sends is
`{type: "mse", value: …}`, not the claimed `{type: "negotiate", codecs: …}`:
the two differ already in the value of `type`. -/
theorem negotiate_message_cex :
    mseMessage "video,audio" (fun _ => true) ≠
      claimedNegotiateMessage "video,audio" (fun _ => true) ∧
    (mseMessage "video,audio" (fun _ => true)).head? = some ("type", "mse") := by
  constructor
  · intro h
    have := congrArg List.head? h
    simp [mseMessage, claimedNegotiateMessage] at this
  · rfl

/-- C6 counterexample: the claim says every reconnect trigger schedules
`max(MinSessionLifetime − (now − sessionOpenTimestamp), 0)`.  The
`MSEVideoStream.js` reconnect (lines 142-147) schedules the constant 2000 ms:
for a session that fails the instant it opened (`now = sessionOpenTimestamp`)
the formula gives 15000, the code schedules 2000. -/
theorem reconnect_delay_cex :
    jsReconnectDelayMs = 2000 ∧ reconnectDelayTsx 0 0 = 15000 ∧
    jsReconnectDelayMs ≠ reconnectDelayTsx 0 0 := by
  refine ⟨rfl, by decide, by decide⟩

/-- C6, amended.  In the tsx second-variant reconnect the scheduled delay is
`max(MinSessionLifetime − (now − sessionOpenTimestamp), 0)` with
`MinSessionLifetime = 15000` ms: it is never negative, and it is zero exactly
when the session had already lived at least `MinSessionLifetime`.  The js
variant instead always schedules a fixed 2000 ms delay. -/
theorem reconnect_delay (connectTS now : Int) :
    0 ≤ reconnectDelayTsx connectTS now ∧
    (reconnectDelayTsx connectTS now = 0 ↔ RECONNECT_TIMEOUT ≤ now - connectTS) ∧
    jsReconnectDelayMs = 2000 := by
  refine ⟨le_max_right _ _, ?_, rfl⟩
  unfold reconnectDelayTsx RECONNECT_TIMEOUT
  constructor
  · intro h
    by_contra hlt
    push_neg at hlt
    have : (0 : Int) < 15000 - (now - connectTS) := by omega
    have := le_max_left (15000 - (now - connectTS)) (0 : Int)
    omega
  · intro h
    have : (15000 : Int) - (now - connectTS) ≤ 0 := by omega
    omega

/-- C8, amended.  Exactly once per session, triggered by the session opening
(the `sourceopen` once-listener), the client sends the single control message
`{type: "mse", value: <comma-joined accepted list>}`, where the accepted list
is the candidate codec list filtered by requested media kind (video when the
identifier contains `vc1`, audio otherwise) and by the Capability Oracle's
probe, preserving candidate order. -/
theorem negotiation_message (media : String) (oracle : String → Bool) :
    mseMessage media oracle =
      [("type", "mse"),
       ("value", String.intercalate "," (acceptedCodecs media oracle))] ∧
    (acceptedCodecs media oracle).Sublist codecsList ∧
    (∀ c, c ∈ acceptedCodecs media oracle ↔
      c ∈ codecsList ∧ kindOk media c = true ∧ oracle (mimeOf c) = true) ∧
    (∀ m : Machine,
      (runTrace m [.sourceopen, .sourceopen]).2 = (runTrace m [.sourceopen]).2) := by
  refine ⟨rfl, ?_, ?_, ?_⟩
  · exact List.Sublist.trans (List.filter_sublist _) (List.filter_sublist _)
  · intro c
    constructor
    · intro hc
      have h1 := List.of_mem_filter hc
      have h2 := List.mem_of_mem_filter hc
      have h3 := List.of_mem_filter h2
      exact ⟨List.mem_of_mem_filter h2, h3, h1⟩
    · rintro ⟨hmem, hkind, hor⟩
      exact List.mem_filter.2 ⟨List.mem_filter.2 ⟨hmem, hkind⟩, hor⟩
  · intro m
    by_cases hl : m.msListener
    · simp [runTrace, stepE, hl]
    · simp [runTrace, stepE, hl]

/-- C3.  Single-flight reconnect: while a reconnection is pending the trigger
is a no-op (so at most one is ever scheduled or in flight), and two triggers
while one is scheduled, followed by the scheduled fire, produce exactly one
`connect()` entry. -/
theorem single_flight_reconnect (m : Machine)
    (hm : m.isMounted = true) (hr : m.isReconnecting = false) :
    (∀ m' : Machine, m'.isReconnecting = true → reconnectM m' = (m', [])) ∧
    ((reconnectM (reconnectM m).1).1 = (reconnectM m).1 ∧
      (reconnectM (reconnectM m).1).2 = []) ∧
    countConnect ((reconnectM m).2 ++ (reconnectM (reconnectM m).1).2 ++
      (stepE (reconnectM (reconnectM m).1).1 .reconnectFire).2) = 1 := by
  have hnoop : ∀ m' : Machine, m'.isReconnecting = true → reconnectM m' = (m', []) := by
    intro m' h
    unfold reconnectM
    simp [h]
  have h1 : reconnectM m =
      ({ cleanupM { m with isReconnecting := true } with
          status := "reconnecting", reconnectTimer := true },
       [.statusCb "reconnecting"]) := by
    unfold reconnectM
    simp [hm, hr]
  have hre : (reconnectM m).1.isReconnecting = true := by
    rw [h1]
    rfl
  have h2 := hnoop (reconnectM m).1 hre
  refine ⟨hnoop, ⟨by rw [h2], by rw [h2]⟩, ?_⟩
  rw [h2, h1]
  simp [stepE, connectM, cleanupM, countConnect, hm]

/-- C3 witness: single-flight evaluated on the concrete streaming machine. -/
theorem single_flight_reconnect_witness :
    countConnect ((reconnectM streamingMachine).2 ++
      (reconnectM (reconnectM streamingMachine).1).2 ++
      (stepE (reconnectM (reconnectM streamingMachine).1).1 .reconnectFire).2) = 1 := by
  exact (single_flight_reconnect streamingMachine rfl rfl).2.2

/-- C5 counterexample: the claim's scenario has the data arriving at synthetic
time t = 0, so `lastDataTime = 0`; the watchdog tick (lines 155-163) begins
with `if (!state.lastDataTime) return`, which treats the timestamp 0 as "no
data yet".  A tick at t = 4000 — where now − lastDataTimestamp = 4000 > 2000
should, per the claim, move the state to `stalled` — leaves the machine in
`streaming` and fires no callback. -/
theorem watchdog_zero_timestamp_cex :
    2000 < 4000 - streamingMachine.lastDataTime ∧
    stepE streamingMachine (.stallTick 4000) = (streamingMachine, []) ∧
    (stepE streamingMachine (.stallTick 4000)).1.status = "streaming" := by
    refine ⟨by decide, by rfl, by rfl⟩

/-- C5, amended.  With a nonzero last-data timestamp t₀ (the code reserves
timestamp 0 for "no data yet"): at every watchdog tick with
now − t₀ ≤ 2000 the machine is left exactly as it was — still `streaming` —
and at a tick with now − t₀ > 2000 the status becomes `stalled` and the
reconnect path runs immediately: the callbacks `stalled` then `reconnecting`
fire and the reconnect timeout is scheduled. -/
theorem watchdog_timing (m : Machine) (now : Nat)
    (harmed : m.stalledTimer = true) (hdata : 0 < m.lastDataTime)
    (hmounted : m.isMounted = true) (hrec : m.isReconnecting = false) :
    (now - m.lastDataTime ≤ 2000 → stepE m (.stallTick now) = (m, [])) ∧
    (2000 < now - m.lastDataTime →
      (stepE m (.stallTick now)).2 = [.statusCb "stalled", .statusCb "reconnecting"] ∧
      (stepE m (.stallTick now)).1.status = "reconnecting" ∧
      (stepE m (.stallTick now)).1.reconnectTimer = true ∧
      (stepE m (.stallTick now)).1.stalledTimer = false) := by
  have hne : ¬ m.lastDataTime = 0 := Nat.pos_iff_ne_zero.mp hdata
  constructor
  · intro hle
    have : ¬ 2000 < now - m.lastDataTime := not_lt.mpr hle
    simp [stepE, harmed, hne, this]
  · intro hgt
    have hg : (m.isMounted = true ∧ m.isReconnecting = false) := ⟨hmounted, hrec⟩
    refine ⟨?_, ?_, ?_, ?_⟩ <;>
      simp [stepE, harmed, hne, hgt, reconnectM, hg, cleanupM]

/-- C5 witness: the amended watchdog timing at a concrete machine whose data
last arrived at t₀ = 1000, ticked at 3000 (still streaming) — the stall tick
at 3001 is exercised through a separate application. -/
theorem watchdog_timing_witness :
    stepE { streamingMachine with lastDataTime := 1000 } (.stallTick 3000) =
      ({ streamingMachine with lastDataTime := 1000 }, []) ∧
    (stepE { streamingMachine with lastDataTime := 1000 } (.stallTick 3001)).2 =
      [.statusCb "stalled", .statusCb "reconnecting"] := by
  have h1 := watchdog_timing { streamingMachine with lastDataTime := 1000 } 3000
    rfl (by decide) rfl rfl
  have h2 := watchdog_timing { streamingMachine with lastDataTime := 1000 } 3001
    rfl (by decide) rfl rfl
  exact ⟨h1.1 (by decide), (h2.2 (by decide)).1⟩

theorem stepE_silent (m : Machine) (e : Ev) (h : silentM m) :
    silentM (stepE m e).1 ∧ (stepE m e).2 = [] := by
  obtain ⟨hws, hsb, hrt, hst⟩ := h
  cases e <;> simp [stepE, silentM, hws, hsb, hrt, hst] <;> split <;>
    simp [hws, hsb, hrt, hst]

theorem runTrace_silent (m : Machine) (evs : List Ev) (h : silentM m) :
    silentM (runTrace m evs).1 ∧ (runTrace m evs).2 = [] := by
  induction evs generalizing m with
  | nil => exact ⟨h, rfl⟩
  | cons e es ih =>
    have hs := stepE_silent m e h
    have hr := ih (stepE m e).1 hs.1
    simp only [runTrace]
    exact ⟨hr.1, by simp [hs.2, hr.2]⟩

theorem stopEffect_silent (m : Machine) : silentM (stopEffect m) := by
  simp [stopEffect, cleanupM, silentM]

/-- C1.  Teardown silence: from any state, once the effect cleanup
(`isMounted = false; cleanup()`) has returned, every possible subsequent
event delivery — WebSocket callbacks, `sourceopen`, `updateend`, a watchdog
tick, a scheduled reconnect fire, in any number and order — emits no status
callback, no error callback and no other output, and at every point both
timers stay unscheduled and every handler stays detached, so no timer
callback ever fires. -/
theorem teardown_silence (m : Machine) (evs : List Ev) :
    (runTrace (stopEffect m) evs).2 = [] ∧ silentM (runTrace (stopEffect m) evs).1 := by
  have h := runTrace_silent (stopEffect m) evs (stopEffect_silent m)
  exact ⟨h.2, h.1⟩

theorem length_take_of_le {α : Type} (l : List α) (n : Nat) (h : n ≤ l.length) :
    (l.take n).length = n := by
  simp [List.length_take, Nat.min_eq_left h]

/-- Enqueuing into a buffer with room appends the bytes to the live prefix. -/
theorem enqueue_take (b : MSEBuffer) (seg : List Nat)
    (hfit : b.length + seg.length ≤ b.data.length) :
    (enqueue b seg).data.take (enqueue b seg).length = b.data.take b.length ++ seg := by
  unfold enqueue
  simp only [hfit, if_pos]
  unfold bufSet
  have hoff : b.length ≤ b.data.length := le_trans (Nat.le_add_right _ _) hfit
  have hlen : (b.data.take b.length).length = b.length :=
    length_take_of_le b.data b.length hoff
  rw [List.append_assoc,
    show b.length + seg.length = (b.data.take b.length).length + seg.length by rw [hlen],
    List.take_append]
  congr 1
  simpa using
    List.take_append seg (b.data.drop (b.length + seg.length)) 0

theorem SInv_init : SInv initS := by
  refine ⟨initBuffer_wf, ?_, ?_, ?_, ?_⟩ <;> simp [initS, initBuffer]

theorem SInv_arrive (s : StreamSys) (bytes : List Nat) (directOk : Bool)
    (h : SInv s) : SInv (arriveStep s bytes directOk) := by
  obtain ⟨hwf, htake, hpw, hbound, hcalls⟩ := h
  have hboundS : ∀ seg ∈ s.sinkLog ++ s.queued, seg.sid < s.nextId + 1 :=
    fun seg hm => Nat.lt_succ_of_lt (hbound seg hm)
  simp only [arriveStep]
  by_cases hsb : s.sbPresent = true
  · rw [if_pos hsb]
    by_cases hbusy : (s.sbUpdating = true ∨ 0 < s.buffer.length)
    · rw [if_pos hbusy]
      by_cases hfit : s.buffer.length + bytes.length ≤ s.buffer.data.length
      · rw [if_pos hfit]
        refine ⟨enqueue_wf _ _ hwf, ?_, ?_, ?_, hcalls⟩
        · rw [enqueue_take s.buffer bytes hfit, htake]
          simp
        · rw [show s.sinkLog ++ (s.queued ++ [({ sid := s.nextId, bytes := bytes } : Segment)]) =
              (s.sinkLog ++ s.queued) ++ [({ sid := s.nextId, bytes := bytes } : Segment)] by simp,
            List.filter_append]
          rw [List.pairwise_append]
          refine ⟨hpw, List.pairwise_singleton _ _ |>.sublist (List.filter_sublist _), ?_⟩
          intro a ha b hb
          have ha2 := List.mem_of_mem_filter ha
          have hb2 := List.mem_of_mem_filter hb
          simp at hb2
          rw [hb2]
          exact hbound a ha2
        · intro seg hm
          rw [show s.sinkLog ++ (s.queued ++ [({ sid := s.nextId, bytes := bytes } : Segment)]) =
              (s.sinkLog ++ s.queued) ++ [({ sid := s.nextId, bytes := bytes } : Segment)] by simp] at hm
          rcases List.mem_append.mp hm with hold | hnew
          · exact hboundS seg hold
          · simp at hnew
            rw [hnew]
            exact Nat.lt_succ_self _
      · rw [if_neg hfit]
        have henq : enqueue s.buffer bytes = s.buffer := by
          unfold enqueue
          rw [if_neg hfit]
        rw [henq]
        exact ⟨hwf, htake, hpw, hboundS, hcalls⟩
    · rw [if_neg hbusy]
      have hlen0 : s.buffer.length = 0 := by
        rcases Nat.eq_zero_or_pos s.buffer.length with h0 | hpos
        · exact h0
        · exact absurd (Or.inr hpos) hbusy
      have hqempty : ∀ q ∈ s.queued, q.bytes = [] := by
        intro q hq
        have : (s.queued.map Segment.bytes).flatten = [] := by
          rw [← htake, hlen0]
          simp
        exact List.flatten_eq_nil_iff.mp this q.bytes (List.mem_map_of_mem _ hq)
      have hqfilter : s.queued.filter nonEmptySeg = [] := by
        rw [List.filter_eq_nil_iff]
        intro q hq
        simp [nonEmptySeg, hqempty q hq]
      by_cases hok : directOk = true
      · rw [if_pos hok]
        refine ⟨hwf, htake, ?_, ?_, ?_⟩
        · rw [show (s.sinkLog ++ [({ sid := s.nextId, bytes := bytes } : Segment)]) ++ s.queued =
              s.sinkLog ++ ([({ sid := s.nextId, bytes := bytes } : Segment)] ++ s.queued) by simp,
            List.filter_append, List.filter_append, hqfilter, List.append_nil]
          rw [List.pairwise_append]
          have hpw2 : (s.sinkLog.filter nonEmptySeg).Pairwise
              (fun a b => a.sid < b.sid) := by
            have : (s.sinkLog.filter nonEmptySeg).Sublist
                ((s.sinkLog ++ s.queued).filter nonEmptySeg) := by
              rw [List.filter_append]
              exact List.sublist_append_left _ _
            exact hpw.sublist this
          refine ⟨hpw2, List.pairwise_singleton _ _ |>.sublist (List.filter_sublist _), ?_⟩
          intro a ha b hb
          have ha2 := List.mem_of_mem_filter ha
          have hb2 := List.mem_of_mem_filter hb
          simp at hb2
          rw [hb2]
          exact hbound a (List.mem_append.mpr (Or.inl ha2))
        · intro seg hm
          rcases List.mem_append.mp hm with hl | hq
          · rcases List.mem_append.mp hl with hl2 | hnew
            · exact hboundS seg (List.mem_append.mpr (Or.inl hl2))
            · simp at hnew
              rw [hnew]
              exact Nat.lt_succ_self _
          · exact hboundS seg (List.mem_append.mpr (Or.inr hq))
        · simp [hcalls]
      · rw [if_neg hok]
        exact ⟨hwf, htake, hpw, hboundS, hcalls⟩
  · rw [if_neg hsb]
    exact ⟨hwf, htake, hpw, hboundS, hcalls⟩

theorem SInv_updateend (s : StreamSys) (flushOk : Bool)
    (h : SInv s) : SInv (updateendStep s flushOk) := by
  obtain ⟨hwf, htake, hpw, hbound, hcalls⟩ := h
  simp only [updateendStep]
  by_cases hlen : 0 < s.buffer.length
  · rw [if_pos hlen]
    by_cases hok : flushOk = true
    · rw [if_pos hok]
      refine ⟨⟨Nat.zero_le _, hwf.2⟩, by simp [flushReset], ?_, ?_, ?_⟩
      · simpa using hpw
      · intro seg hm
        simp at hm
        exact hbound seg (List.mem_append.mpr hm)
      · rw [List.flatten_append, hcalls, htake]
        simp
    · rw [if_neg hok]
      exact ⟨hwf, htake, hpw, hbound, hcalls⟩
  · rw [if_neg hlen]
    exact ⟨hwf, htake, hpw, hbound, hcalls⟩

theorem SInv_runS (s : StreamSys) (evs : List SEv) (h : SInv s) :
    SInv (runS s evs) := by
  induction evs generalizing s with
  | nil => exact h
  | cons e es ih =>
    apply ih
    cases e with
    | arrive bytes directOk => exact SInv_arrive s bytes directOk h
    | updateend flushOk => exact SInv_updateend s flushOk h

/-- C4.  Order preservation: for every sequence of arriving binary segments
and every interleaving of sink busy/ready signals (including failed direct
appends, failed flushes and overflow drops), the bytes the sink receives are
exactly the delivered segments' bytes concatenated in delivery order, the
delivered segments that carry bytes appear in strictly increasing arrival
order (a later-arrived segment's bytes are never delivered before an
earlier-arrived, delivered segment's bytes), and every delivered segment
actually arrived. -/
theorem order_preservation (evs : List SEv) :
    ((runS initS evs).sinkCalls).flatten =
      ((runS initS evs).sinkLog.map Segment.bytes).flatten ∧
    ((runS initS evs).sinkLog.filter nonEmptySeg).Pairwise (fun a b => a.sid < b.sid) ∧
    ∀ seg ∈ (runS initS evs).sinkLog, seg.sid < (runS initS evs).nextId := by
  have h := SInv_runS initS evs SInv_init
  obtain ⟨-, -, hpw, hbound, hcalls⟩ := h
  refine ⟨hcalls, ?_, ?_⟩
  · have : ((runS initS evs).sinkLog.filter nonEmptySeg).Sublist
        (((runS initS evs).sinkLog ++ (runS initS evs).queued).filter nonEmptySeg) := by
      rw [List.filter_append]
      exact List.sublist_append_left _ _
    exact hpw.sublist this
  · intro seg hm
    exact hbound seg (List.mem_append.mpr (Or.inl hm))

end MSE
